import Mathlib

/-!
# Verification of the firebaseit synchronization core

Shallow embedding of the firebaseit core — the retriever cache
(`retrieverCache.ts`), the per-key retriever state machine, and the document
update diff engine (`docUpdate.ts`) — together with proofs about the claims of
the natural-language specification.

JS values are modelled by the inductive `Value`; JS numbers are modelled as
integers (all behaviors under scrutiny involve exact integer arithmetic; the
NaN-poisoning of a numeric diff against a missing baseline, which the spec
calls undefined behavior, is modelled as a `DiffError`).
-/

section AssocList

variable {α : Type} [DecidableEq α] {β : Type}

/-- Association-list lookup keyed by decidable equality (models indexing a
plain JS object / Map by key). -/
def lookupA : List (α × β) → α → Option β
  | [], _ => none
  | (k1, v) :: rest, k => if k1 = k then some v else lookupA rest k

/-- Association-list write: replaces the binding in place when the key exists,
otherwise appends (models `obj[key] = value`). -/
def setA : List (α × β) → α → β → List (α × β)
  | [], k, v => [(k, v)]
  | (k1, v1) :: rest, k, v =>
    if k1 = k then (k, v) :: rest else (k1, v1) :: setA rest k v

/-- Association-list delete (models `delete obj[key]`). -/
def eraseA : List (α × β) → α → List (α × β)
  | [], _ => []
  | (k1, v1) :: rest, k =>
    if k1 = k then eraseA rest k else (k1, v1) :: eraseA rest k

theorem lookupA_setA_same (l : List (α × β)) (k : α) (v : β) :
    lookupA (setA l k v) k = some v := by
  induction l with
  | nil => simp [setA, lookupA]
  | cons hd tl ih =>
    obtain ⟨k2, v2⟩ := hd
    by_cases h : k2 = k
    · simp [setA, h, lookupA]
    · simp [setA, h, lookupA, ih]

theorem lookupA_setA_ne (l : List (α × β)) (k k1 : α) (v : β) (h : k1 ≠ k) :
    lookupA (setA l k v) k1 = lookupA l k1 := by
  induction l with
  | nil => simp [setA, lookupA, Ne.symm h]
  | cons hd tl ih =>
    obtain ⟨k2, v2⟩ := hd
    by_cases h2 : k2 = k
    · subst h2
      simp [setA, lookupA, Ne.symm h]
    · simp [setA, h2, lookupA, ih]

theorem lookupA_eraseA_ne (l : List (α × β)) (k k1 : α) (h : k1 ≠ k) :
    lookupA (eraseA l k) k1 = lookupA l k1 := by
  induction l with
  | nil => simp [eraseA]
  | cons hd tl ih =>
    obtain ⟨k2, v2⟩ := hd
    by_cases h2 : k2 = k
    · subst h2
      simp [eraseA, lookupA, Ne.symm h, ih]
    · simp [eraseA, h2, lookupA, ih]

end AssocList

/-- JS/Firestore field values: null, booleans, numbers (modelled as integers),
strings, arrays, and plain objects with ordered string keys. -/
inductive Value where
  | vnull : Value
  | vbool : Bool → Value
  | vnum : Int → Value
  | vstr : String → Value
  | varr : List Value → Value
  | vobj : List (String × Value) → Value
deriving Repr

mutual

/-- Deep structural equality of values: the behavior of lodash `isEqual` on the
modelled value domain (objects/arrays compared by value, not by reference). -/
def Value.beq : Value → Value → Bool
  | .vnull, .vnull => true
  | .vbool a, .vbool b => a == b
  | .vnum a, .vnum b => a == b
  | .vstr a, .vstr b => a == b
  | .varr a, .varr b => Value.beqList a b
  | .vobj a, .vobj b => Value.beqFields a b
  | _, _ => false

/-- Elementwise deep equality of value arrays. -/
def Value.beqList : List Value → List Value → Bool
  | [], [] => true
  | x :: xs, y :: ys => Value.beq x y && Value.beqList xs ys
  | _, _ => false

/-- Fieldwise deep equality of object field lists. -/
def Value.beqFields : List (String × Value) → List (String × Value) → Bool
  | [], [] => true
  | (k1, v1) :: xs, (k2, v2) :: ys =>
    k1 == k2 && Value.beq v1 v2 && Value.beqFields xs ys
  | _, _ => false

end

mutual

theorem Value.eq_of_beq : ∀ {a b : Value}, Value.beq a b = true → a = b
  | .vnull, .vnull, _ => rfl
  | .vbool a, .vbool b, h =>
    have e : a = b := LawfulBEq.eq_of_beq h
    by rw [e]
  | .vnum a, .vnum b, h =>
    have e : a = b := LawfulBEq.eq_of_beq h
    by rw [e]
  | .vstr a, .vstr b, h =>
    have e : a = b := LawfulBEq.eq_of_beq h
    by rw [e]
  | .varr a, .varr b, h =>
    have e : a = b := Value.eqList_of_beq h
    by rw [e]
  | .vobj a, .vobj b, h =>
    have e : a = b := Value.eqFields_of_beq h
    by rw [e]
  | .vnull, .vbool _, h => nomatch h
  | .vnull, .vnum _, h => nomatch h
  | .vnull, .vstr _, h => nomatch h
  | .vnull, .varr _, h => nomatch h
  | .vnull, .vobj _, h => nomatch h
  | .vbool _, .vnull, h => nomatch h
  | .vbool _, .vnum _, h => nomatch h
  | .vbool _, .vstr _, h => nomatch h
  | .vbool _, .varr _, h => nomatch h
  | .vbool _, .vobj _, h => nomatch h
  | .vnum _, .vnull, h => nomatch h
  | .vnum _, .vbool _, h => nomatch h
  | .vnum _, .vstr _, h => nomatch h
  | .vnum _, .varr _, h => nomatch h
  | .vnum _, .vobj _, h => nomatch h
  | .vstr _, .vnull, h => nomatch h
  | .vstr _, .vbool _, h => nomatch h
  | .vstr _, .vnum _, h => nomatch h
  | .vstr _, .varr _, h => nomatch h
  | .vstr _, .vobj _, h => nomatch h
  | .varr _, .vnull, h => nomatch h
  | .varr _, .vbool _, h => nomatch h
  | .varr _, .vnum _, h => nomatch h
  | .varr _, .vstr _, h => nomatch h
  | .varr _, .vobj _, h => nomatch h
  | .vobj _, .vnull, h => nomatch h
  | .vobj _, .vbool _, h => nomatch h
  | .vobj _, .vnum _, h => nomatch h
  | .vobj _, .vstr _, h => nomatch h
  | .vobj _, .varr _, h => nomatch h

theorem Value.eqList_of_beq : ∀ {a b : List Value}, Value.beqList a b = true → a = b
  | [], [], _ => rfl
  | x :: xs, y :: ys, h =>
    have h1 : Value.beq x y = true := ((Bool.and_eq_true _ _).mp h).1
    have h2 : Value.beqList xs ys = true := ((Bool.and_eq_true _ _).mp h).2
    have e1 : x = y := Value.eq_of_beq h1
    have e2 : xs = ys := Value.eqList_of_beq h2
    by rw [e1, e2]
  | [], _ :: _, h => nomatch h
  | _ :: _, [], h => nomatch h

theorem Value.eqFields_of_beq :
    ∀ {a b : List (String × Value)}, Value.beqFields a b = true → a = b
  | [], [], _ => rfl
  | (k1, v1) :: xs, (k2, v2) :: ys, h =>
    have h12 : (k1 == k2 && Value.beq v1 v2) = true := ((Bool.and_eq_true _ _).mp h).1
    have h3 : Value.beqFields xs ys = true := ((Bool.and_eq_true _ _).mp h).2
    have h1 : (k1 == k2) = true := ((Bool.and_eq_true _ _).mp h12).1
    have h2 : Value.beq v1 v2 = true := ((Bool.and_eq_true _ _).mp h12).2
    have e0 : k1 = k2 := LawfulBEq.eq_of_beq h1
    have e1 : v1 = v2 := Value.eq_of_beq h2
    have e2 : xs = ys := Value.eqFields_of_beq h3
    by rw [e0, e1, e2]
  | [], _ :: _, h => nomatch h
  | _ :: _, [], h => nomatch h

end

mutual

theorem Value.beq_refl : ∀ a : Value, Value.beq a a = true
  | .vnull => rfl
  | .vbool a => by simp [Value.beq]
  | .vnum a => by simp [Value.beq]
  | .vstr a => by simp [Value.beq]
  | .varr a =>
    have h := Value.beqList_refl a
    by rw [Value.beq, h]
  | .vobj a =>
    have h := Value.beqFields_refl a
    by rw [Value.beq, h]

theorem Value.beqList_refl : ∀ l : List Value, Value.beqList l l = true
  | [] => rfl
  | x :: xs =>
    have h1 := Value.beq_refl x
    have h2 := Value.beqList_refl xs
    by simp [Value.beqList, h1, h2]

theorem Value.beqFields_refl : ∀ l : List (String × Value), Value.beqFields l l = true
  | [] => rfl
  | (k, v) :: xs =>
    have h1 := Value.beq_refl v
    have h2 := Value.beqFields_refl xs
    by simp [Value.beqFields, h1, h2]

end

instance : BEq Value := ⟨Value.beq⟩

instance : LawfulBEq Value where
  eq_of_beq := Value.eq_of_beq
  rfl := Value.beq_refl _

instance : DecidableEq Value := fun a b =>
  if h : Value.beq a b = true then isTrue (Value.eq_of_beq h)
  else isFalse fun he => h (he ▸ Value.beq_refl a)

example : (Value.vstr "a") ≠ (Value.vstr "b") := by decide
example : (Value.varr [.vobj [("x", .vnum 1)]]) = (Value.varr [.vobj [("x", .vnum 1)]]) := by decide

/-! ## Document update diff engine (`docUpdate.ts`) -/

deriving instance DecidableEq for Except

/-- `isEqual` from lodash as used by `diffDeep`: deep value equality. -/
def isEqual (a b : Value) : Bool := Value.beq a b

/-- Result of `diffDeep`. -/
structure DiffResult where
  added : List Value
  removed : List Value
deriving Repr, DecidableEq

/-- `diffDeep(oldArr, newArr)`: items added to / removed from `oldArr → newArr`
under deep equality:
`added = newArr.filter(n => !oldArr.some(o => isEqual(o, n)))`,
`removed = oldArr.filter(o => !newArr.some(n => isEqual(o, n)))`. -/
def diffDeep (oldArr newArr : List Value) : DiffResult where
  added := newArr.filter fun n => !(oldArr.any fun o => isEqual o n)
  removed := oldArr.filter fun o => !(newArr.any fun n => isEqual o n)

/-- The four server-side write-transform kinds the diff engine emits
(`increment`, `arrayUnion`, `arrayRemove`, plus literal field replacement). -/
inductive Transform where
  | increment : Int → Transform
  | arrayUnion : List Value → Transform
  | arrayRemove : List Value → Transform
  | literal : Value → Transform
deriving Repr, DecidableEq

/-- Failure of the diff engine's baseline access. The JS source instead computes
with `undefined` (yielding a NaN-poisoned increment operand, or a TypeError in
the array branch) — behavior the spec's §9 declares undefined; the embedding
surfaces it as an explicit error. -/
inductive DiffError where
  | numericBaseMissing (key : String)
  | arrayBaseMissing (key : String)
deriving Repr, DecidableEq

/-- Splits a character list at `.` separators (all segments kept, matching
JS `String.prototype.split(".")`). -/
def splitDotsAux : List Char → List Char → List (List Char)
  | [], acc => [acc.reverse]
  | c :: rest, acc =>
    if c = '.' then acc.reverse :: splitDotsAux rest []
    else splitDotsAux rest (c :: acc)

/-- `key.split(".")`. -/
def splitDots (s : String) : List String :=
  (splitDotsAux s.data []).map fun cs => ⟨cs⟩

example : splitDots "views" = ["views"] := by decide
example : splitDots "a.b.c" = ["a", "b", "c"] := by decide

/-- Field access on an object value (`aggr[key]`). -/
def getFieldV : Value → String → Option Value
  | .vobj fields, k => lookupA fields k
  | _, _ => none

/-- `path.reduce((aggr, key) => aggr[key], doc)`: chained field access along a
dot-path split; `none` when any step is missing or not an object. -/
def lookupPath (v : Value) : List String → Option Value
  | [] => some v
  | k :: rest =>
    match getFieldV v k with
    | some v2 => lookupPath v2 rest
    | none => none

/-- One entry of `createDocUpdate`'s loop body: for a numeric proposed value the
emitted transform is `increment(currentValue + value)` where `currentValue` is
read from the cached document along the dot-path of the key; for an array value
the field is diffed with `diffDeep(doc[key], value)` and exactly one of
`arrayUnion(added)` / `arrayRemove(removed)` is emitted (nothing when both
are empty); any other value is a literal replacement. -/
def createDocUpdateEntry (doc : Value) (key : String) (value : Value) :
    Except DiffError (List (String × Transform)) :=
  match value with
  | .vnum n =>
    match lookupPath doc (splitDots key) with
    | some (.vnum currentValue) => .ok [(key, .increment (currentValue + n))]
    | _ => .error (.numericBaseMissing key)
  | .varr newArr =>
    match getFieldV doc key with
    | some (.varr oldArr) =>
      if !(diffDeep oldArr newArr).added.isEmpty then
        .ok [(key, .arrayUnion (diffDeep oldArr newArr).added)]
      else if !(diffDeep oldArr newArr).removed.isEmpty then
        .ok [(key, .arrayRemove (diffDeep oldArr newArr).removed)]
      else .ok []
    | _ => .error (.arrayBaseMissing key)
  | _ => .ok [(key, .literal value)]

/-- `createDocUpdate(doc, data)`: builds the transform map for a proposed update
`data` against the cached document `doc`, processing entries in order. -/
def createDocUpdate (doc : Value) : List (String × Value) →
    Except DiffError (List (String × Transform))
  | [] => .ok []
  | (key, value) :: rest =>
    match createDocUpdateEntry doc key value with
    | .error e => .error e
    | .ok head =>
      match createDocUpdate doc rest with
      | .error e => .error e
      | .ok tail => .ok (head ++ tail)

example :
    createDocUpdate (.vobj [("id", .vstr "1"), ("views", .vnum 5)])
      [("views", .vnum 8)] = .ok [("views", .increment 13)] := by decide

example :
    createDocUpdate (.vobj [("id", .vstr "1"), ("tags", .varr [.vstr "a", .vstr "b"])])
      [("tags", .varr [.vstr "a", .vstr "b", .vstr "c"])]
      = .ok [("tags", .arrayUnion [.vstr "c"])] := by decide

example :
    createDocUpdate (.vobj [("id", .vstr "1"), ("tags", .varr [.vstr "a", .vstr "b"])])
      [("tags", .varr [.vstr "a"])]
      = .ok [("tags", .arrayRemove [.vstr "b"])] := by decide

/-! ## Transform application (the remote service's write semantics) -/

/-- Modelled from the spec: the remote document-service collaborator (§6) is
outside the repository; this is its application of an `arrayUnion` transform —
set-like append of each operand element not already present under deep
equality. -/
def arrayUnionApply (old es : List Value) : List Value :=
  es.foldl (fun acc e => if acc.any fun o => isEqual o e then acc else acc ++ [e]) old

/-- Modelled from the spec: the remote service's application of an
`arrayRemove` transform — removes every element deep-equal to an operand. -/
def arrayRemoveApply (old es : List Value) : List Value :=
  old.filter fun o => !(es.any fun e => isEqual o e)

/-- Modelled from the spec: the remote service's application of one transform
to the current value of a field (`increment` adds to a numeric base, the array
transforms rewrite an array base, a literal replaces the field). -/
def applyTransform (base : Option Value) : Transform → Value
  | .increment n =>
    match base with
    | some (.vnum c) => .vnum (c + n)
    | _ => .vnum n
  | .arrayUnion es =>
    match base with
    | some (.varr old) => .varr (arrayUnionApply old es)
    | _ => .varr (arrayUnionApply [] es)
  | .arrayRemove es =>
    match base with
    | some (.varr old) => .varr (arrayRemoveApply old es)
    | _ => .varr []
  | .literal v => v

/-- Object field write (`obj[key] = value` on the document). -/
def setFieldV : Value → String → Value → Value
  | .vobj fields, k, v => .vobj (setA fields k v)
  | other, _, _ => other

/-- Modelled from the spec: applying a whole transform map to a cached
document, field by field in map order (top-level keys). -/
def applyDocUpdate (doc : Value) (updates : List (String × Transform)) : Value :=
  updates.foldl (fun d kt => setFieldV d kt.1 (applyTransform (getFieldV d kt.1) kt.2)) doc

/-! ## Retriever state machine (`retrieverCache.ts`) -/

/-- A reconciled document: decoded fields plus the stable `id`
(`{...doc.data(), id: doc.id}`). -/
structure SDoc where
  id : String
  fields : List (String × Value)
deriving Repr, DecidableEq

/-- The value of the retriever's `snapshot` variable once assigned: `null` for
a not-found document, a document object, or the ordered array kept for a
collection/query. -/
inductive SnapVal where
  | nullSnap : SnapVal
  | docSnap (fields : List (String × Value)) (id : String) : SnapVal
  | arrSnap (docs : List SDoc) : SnapVal
deriving Repr, DecidableEq

/-- JS truthiness of the `snapshot` variable: `null` is falsy; document objects
and arrays (including the empty array) are truthy. -/
def SnapVal.truthy : SnapVal → Bool
  | .nullSnap => false
  | _ => true

/-- The observable state of a `SuspensePromise`: `status` plus `value`/`reason`
mutated in place by `createFulfilledPromise`/`createRejectedPromise`. Errors
are modelled as opaque tokens. -/
inductive PStatus where
  | pending : PStatus
  | fulfilled : SnapVal → PStatus
  | rejected : Nat → PStatus
deriving Repr, DecidableEq

/-- The retriever's key kind (`type` of the descriptor given to `create`). -/
inductive RKind where
  | document | collection | query
deriving Repr, DecidableEq

/-- One entry of `QuerySnapshot.docChanges()`. -/
inductive DocChange where
  | added (doc : SDoc)
  | modified (doc : SDoc)
  | removed (doc : SDoc)
deriving Repr, DecidableEq

/-- A raw adapter payload: a document snapshot with `exists() = false` (which
still carries its id), an existing document snapshot, or a query snapshot
carrying an ordered change batch. -/
inductive RawSnapshot where
  | docMissing (id : String)
  | docData (id : String) (fields : List (String × Value))
  | queryData (changes : List DocChange)
deriving Repr, DecidableEq

/-- State of one Retriever closure together with the shared `dataCache` map it
writes, a fetch counter, and the log of values delivered to the subscription
callback. `promise` carries an identity token so that "same future object"
claims are expressible; `none` models the unset `snapshotPromise`/`snapshot`
variables. -/
structure RetState where
  kind : RKind
  snapshot : Option SnapVal
  promise : Option (Nat × PStatus)
  nextPromiseId : Nat
  fetchCount : Nat
  notes : List SnapVal
  isInitial : Bool
  dataCache : List (String × SDoc)
deriving Repr, DecidableEq

/-- A freshly constructed Retriever (no fetch, no snapshot, initial
subscription delivery still pending). -/
def initRetState (k : RKind) : RetState where
  kind := k
  snapshot := none
  promise := none
  nextPromiseId := 0
  fetchCount := 0
  notes := []
  isInitial := true
  dataCache := []

/-- The change loop of `updateSnapshot` for collection/query kinds: `added`
appends `{...fields, id}` and writes `dataCache[id]`; `modified` splice-replaces
the element with matching id (on a missing id, `splice(findIndex = -1, 1, data)`
replaces the last element, or inserts into an empty array); `removed` splices
out the matching element (on a missing id it drops the last element) and
deletes `dataCache[id]`. -/
def applyChanges : List SDoc × List (String × SDoc) → List DocChange →
    List SDoc × List (String × SDoc)
  | acc, [] => acc
  | (docs, dc), .added d :: rest =>
    applyChanges (docs ++ [d], setA dc d.id d) rest
  | (docs, dc), .modified d :: rest =>
    let docs2 :=
      match docs.findIdx? (fun x => x.id = d.id) with
      | some i => docs.set i d
      | none => docs.dropLast ++ [d]
    applyChanges (docs2, setA dc d.id d) rest
  | (docs, dc), .removed d :: rest =>
    let docs2 :=
      match docs.findIdx? (fun x => x.id = d.id) with
      | some i => docs.eraseIdx i
      | none => docs.dropLast
    applyChanges (docs2, eraseA dc d.id) rest

/-- `updateSnapshot(updatedSnapshot)`: for collection/query kinds it folds the
payload's change batch over the current array (`snapshot || []`), writing the
shared `dataCache` as a side effect, and returns the resulting array; for
document kind it returns `{...data(), id}` and touches nothing. It never
assigns the `snapshot` variable itself. -/
def updateSnapshotFn (s : RetState) (raw : RawSnapshot) : RetState × SnapVal :=
  if s.kind = .collection ∨ s.kind = .query then
    let base : List SDoc :=
      match s.snapshot with
      | some (.arrSnap ds) => ds
      | _ => []
    let changes : List DocChange :=
      match raw with
      | .queryData cs => cs
      | _ => []
    let res := applyChanges (base, s.dataCache) changes
    ({ s with dataCache := res.2 }, .arrSnap res.1)
  else
    match raw with
    | .docData id fields => (s, .docSnap fields id)
    | .docMissing id => (s, .docSnap [] id)
    | .queryData _ => (s, .docSnap [] "")

/-- `get()`: returns the existing `snapshotPromise` unchanged when present;
otherwise allocates a fresh pending future, starts the one-shot remote fetch
(counted by `fetchCount`), and returns the new future's token. -/
def getOp (s : RetState) : RetState × Nat :=
  match s.promise with
  | some (pid, _) => (s, pid)
  | none =>
    ({ s with
        promise := some (s.nextPromiseId, .pending)
        nextPromiseId := s.nextPromiseId + 1
        fetchCount := s.fetchCount + 1 }, s.nextPromiseId)

/-- The fetch continuation (`then` branch of `get()`): a non-existing document
snapshot fulfills the future with `null`; otherwise the future is fulfilled
with `snapshot || updateSnapshot(docsSnapshot)` — the already-recorded snapshot
when truthy, else the payload run through `updateSnapshot`. The `snapshot`
variable itself is never assigned here. -/
def fetchResolve (s : RetState) (raw : RawSnapshot) : RetState :=
  match s.promise with
  | none => s
  | some (pid, _) =>
    match raw with
    | .docMissing _ => { s with promise := some (pid, .fulfilled .nullSnap) }
    | _ =>
      match s.snapshot with
      | some sv =>
        if sv.truthy then { s with promise := some (pid, .fulfilled sv) }
        else
          let res := updateSnapshotFn s raw
          { res.1 with promise := some (pid, .fulfilled res.2) }
      | none =>
        let res := updateSnapshotFn s raw
        { res.1 with promise := some (pid, .fulfilled res.2) }

/-- The fetch failure continuation (`catch` branch of `get()`): rejects the
future in place and does nothing else. -/
def fetchReject (s : RetState) (e : Nat) : RetState :=
  match s.promise with
  | none => s
  | some (pid, _) => { s with promise := some (pid, .rejected e) }

/-- The `onSnapshot` push callback registered by `subscribe`: the synthetic
initial delivery is swallowed when a truthy snapshot is already known;
otherwise the snapshot is reassigned (null for a non-existing document, the
`updateSnapshot` result otherwise), the future is fulfilled in place with it,
and the callback is notified. When `snapshotPromise` is still unset,
`createFulfilledPromise(undefined, ...)` raises a TypeError after the snapshot
assignment, so the callback is never reached. -/
def push (s : RetState) (raw : RawSnapshot) : RetState :=
  if (match s.snapshot with | some sv => sv.truthy | none => false) && s.isInitial then
    { s with isInitial := false }
  else
    let s1 := { s with isInitial := false }
    match raw with
    | .docMissing _ =>
      let s2 := { s1 with snapshot := some .nullSnap }
      match s2.promise with
      | some (pid, _) =>
        { s2 with
            promise := some (pid, .fulfilled .nullSnap)
            notes := s2.notes ++ [.nullSnap] }
      | none => s2
    | _ =>
      let res := updateSnapshotFn s1 raw
      let s2 := { res.1 with snapshot := some res.2 }
      match s2.promise with
      | some (pid, _) =>
        { s2 with
            promise := some (pid, .fulfilled res.2)
            notes := s2.notes ++ [res.2] }
      | none => s2

/-- `getSnapshot()`. -/
def getSnapshotOp (s : RetState) : Option SnapVal := s.snapshot

/-- The shared `dataCache` read (`getDocumentData`) as observed through a
retriever's state. -/
def getDocumentDataR (s : RetState) (id : String) : Option SDoc :=
  lookupA s.dataCache id

/-! ## Retriever cache registry (`createRetrieverCache`) -/

/-- Structural description of a query reference: base path plus the ordered
constraint descriptor list (kind, field, operand rendering); `queryEqual` is
structural equality of this description. -/
structure QueryDesc where
  basePath : String
  constraints : List (String × String × String)
deriving Repr, DecidableEq

/-- A reference key handed to `create`: a document, collection, or query
descriptor. -/
inductive RefKey where
  | document (path : String)
  | collection (path : String)
  | query (q : QueryDesc)
deriving Repr, DecidableEq

/-- The key equality the cache's lookup induces: document and collection keys
are identified by their canonical path string (both live in the same
path-indexed map), query keys by `queryEqual` structural equality. -/
def keyEq : RefKey → RefKey → Bool
  | .document p, .document p2 => p = p2
  | .document p, .collection p2 => p = p2
  | .collection p, .document p2 => p = p2
  | .collection p, .collection p2 => p = p2
  | .query q, .query q2 => q = q2
  | _, _ => false

/-- State of `createRetrieverCache`'s closure: the path-indexed retriever map
(`cache`), the insertion-ordered query map (`queryCache`), the shared id →
last-known-document map (`dataCache`), and a counter allocating retriever
identity tokens. -/
structure CacheState where
  dataCache : List (String × SDoc)
  pathCache : List (String × Nat)
  queryCache : List (QueryDesc × Nat)
  nextId : Nat
deriving Repr, DecidableEq

/-- A freshly created cache: all three maps empty. -/
def initCacheState : CacheState where
  dataCache := []
  pathCache := []
  queryCache := []
  nextId := 0

/-- `getRetriever(key)`: path map lookup for document/collection references,
first `queryEqual` match in insertion order for query references. -/
def getRetrieverOp (s : CacheState) : RefKey → Option Nat
  | .document p => lookupA s.pathCache p
  | .collection p => lookupA s.pathCache p
  | .query q => lookupA s.queryCache q

/-- `create(descriptor)`: returns the registered retriever for an equal key
when one exists, otherwise constructs a new one (fresh identity token),
registers it (`setRetriever`), and returns it. -/
def createOp (s : CacheState) (k : RefKey) : CacheState × Nat :=
  match getRetrieverOp s k with
  | some rid => (s, rid)
  | none =>
    let rid := s.nextId
    match k with
    | .document p =>
      ({ s with pathCache := setA s.pathCache p rid, nextId := rid + 1 }, rid)
    | .collection p =>
      ({ s with pathCache := setA s.pathCache p rid, nextId := rid + 1 }, rid)
    | .query q =>
      ({ s with queryCache := s.queryCache ++ [(q, rid)], nextId := rid + 1 }, rid)

/-- `getDocumentData(id)`. -/
def getDocumentData (s : CacheState) (id : String) : Option SDoc :=
  lookupA s.dataCache id

/-- `setDocumentData(id, data)`. -/
def setDocumentData (s : CacheState) (id : String) (d : SDoc) : CacheState :=
  { s with dataCache := setA s.dataCache id d }

/-- The operations that write the cache's `dataCache`: an explicit
`setDocumentData` call, or a retriever reconciliation batch (the
collection/query branch of `updateSnapshot`, which also maintains its own
snapshot array, here carried alongside). -/
inductive CacheOp where
  | setDoc (id : String) (d : SDoc)
  | reconcile (docs : List SDoc) (changes : List DocChange)
deriving Repr, DecidableEq

/-- Effect of one `CacheOp` on the cache state. -/
def runOp (s : CacheState) : CacheOp → CacheState
  | .setDoc id d => setDocumentData s id d
  | .reconcile docs changes =>
    { s with dataCache := (applyChanges (docs, s.dataCache) changes).2 }

/-- Effect of a sequence of `CacheOp`s. -/
def runOps (s : CacheState) (ops : List CacheOp) : CacheState :=
  ops.foldl runOp s

/-- The document id named by a change event (`change.doc.id`). -/
def DocChange.docId : DocChange → String
  | .added d => d.id
  | .modified d => d.id
  | .removed d => d.id

/-- Whether an operation writes (or deletes) the `dataCache` entry of `id`. -/
def writesId (id : String) : CacheOp → Bool
  | .setDoc i _ => i = id
  | .reconcile _ changes => changes.any fun c => c.docId = id

/-! ## Properties of the array diff and of transform application -/

theorem isEqual_iff (a b : Value) : isEqual a b = true ↔ a = b := by
  constructor
  · exact Value.eq_of_beq
  · intro h
    subst h
    exact Value.beq_refl a

theorem mem_diffDeep_added (old new : List Value) (x : Value) :
    x ∈ (diffDeep old new).added ↔ x ∈ new ∧ x ∉ old := by
  simp only [diffDeep, List.mem_filter, List.any_eq_true, isEqual_iff,
    Bool.not_eq_true', List.any_eq_false]
  constructor
  · rintro ⟨hn, h⟩
    exact ⟨hn, fun hx => h x hx rfl⟩
  · rintro ⟨hn, h⟩
    exact ⟨hn, fun o ho hoe => h (hoe ▸ ho)⟩

theorem mem_diffDeep_removed (old new : List Value) (x : Value) :
    x ∈ (diffDeep old new).removed ↔ x ∈ old ∧ x ∉ new := by
  simp only [diffDeep, List.mem_filter, List.any_eq_true, isEqual_iff,
    Bool.not_eq_true', List.any_eq_false]
  constructor
  · rintro ⟨ho, h⟩
    exact ⟨ho, fun hx => h x hx rfl⟩
  · rintro ⟨ho, h⟩
    exact ⟨ho, fun n hn hne => h (by rw [hne]; exact hn)⟩

theorem diffDeep_added_eq_nil (old new : List Value) :
    (diffDeep old new).added = [] ↔ ∀ x ∈ new, x ∈ old := by
  rw [List.eq_nil_iff_forall_not_mem]
  constructor
  · intro h x hx
    by_contra hold
    exact h x ((mem_diffDeep_added old new x).mpr ⟨hx, hold⟩)
  · intro h x hmem
    obtain ⟨hx, hold⟩ := (mem_diffDeep_added old new x).mp hmem
    exact hold (h x hx)

theorem diffDeep_removed_eq_nil (old new : List Value) :
    (diffDeep old new).removed = [] ↔ ∀ x ∈ old, x ∈ new := by
  rw [List.eq_nil_iff_forall_not_mem]
  constructor
  · intro h x hx
    by_contra hnew
    exact h x ((mem_diffDeep_removed old new x).mpr ⟨hx, hnew⟩)
  · intro h x hmem
    obtain ⟨hx, hnew⟩ := (mem_diffDeep_removed old new x).mp hmem
    exact hnew (h x hx)

theorem mem_arrayUnionApply (es : List Value) :
    ∀ (old : List Value) (x : Value),
    x ∈ arrayUnionApply old es ↔ x ∈ old ∨ x ∈ es := by
  induction es with
  | nil => simp [arrayUnionApply]
  | cons e es ih =>
    intro old x
    have step :
        arrayUnionApply old (e :: es) =
        arrayUnionApply (if old.any fun o => isEqual o e then old else old ++ [e]) es := rfl
    rw [step, ih]
    by_cases h : (old.any fun o => isEqual o e) = true
    · have he : e ∈ old := by
        obtain ⟨o, ho, hoe⟩ := List.any_eq_true.mp h
        exact ((isEqual_iff o e).mp hoe) ▸ ho
      simp only [h, if_pos]
      constructor
      · rintro (hx | hx)
        · exact .inl hx
        · exact .inr (List.mem_cons_of_mem e hx)
      · rintro (hx | hx)
        · exact .inl hx
        · rcases List.mem_cons.mp hx with hx | hx
          · exact .inl (hx ▸ he)
          · exact .inr hx
    · simp only [h, if_neg, Bool.false_eq_true, not_false_iff]
      simp [List.mem_append, List.mem_cons]
      tauto

theorem mem_arrayRemoveApply (old es : List Value) (x : Value) :
    x ∈ arrayRemoveApply old es ↔ x ∈ old ∧ x ∉ es := by
  simp only [arrayRemoveApply, List.mem_filter, List.any_eq_true, isEqual_iff,
    Bool.not_eq_true', List.any_eq_false]
  constructor
  · rintro ⟨ho, h⟩
    exact ⟨ho, fun hx => h x hx rfl⟩
  · rintro ⟨ho, h⟩
    exact ⟨ho, fun e he hee => h (by rw [hee]; exact he)⟩

/-- Applying the pure-addition transform produced by the diff reproduces a
value diff-equal to the proposal: the re-diff is empty. -/
theorem diffDeep_after_union (old new : List Value)
    (hrem : (diffDeep old new).removed = []) :
    diffDeep (arrayUnionApply old (diffDeep old new).added) new = ⟨[], []⟩ := by
  have hsub : ∀ x ∈ old, x ∈ new := (diffDeep_removed_eq_nil old new).mp hrem
  have hU : ∀ x, x ∈ arrayUnionApply old (diffDeep old new).added ↔
      x ∈ old ∨ (x ∈ new ∧ x ∉ old) := by
    intro x
    rw [mem_arrayUnionApply, mem_diffDeep_added]
  have h1 : (diffDeep (arrayUnionApply old (diffDeep old new).added) new).added = [] := by
    rw [diffDeep_added_eq_nil]
    intro x hx
    rw [hU]
    by_cases hxo : x ∈ old
    · exact .inl hxo
    · exact .inr ⟨hx, hxo⟩
  have h2 : (diffDeep (arrayUnionApply old (diffDeep old new).added) new).removed = [] := by
    rw [diffDeep_removed_eq_nil]
    intro x hx
    rcases (hU x).mp hx with hxo | hxn
    · exact hsub x hxo
    · exact hxn.1
  have hsplit : diffDeep (arrayUnionApply old (diffDeep old new).added) new =
      ⟨(diffDeep (arrayUnionApply old (diffDeep old new).added) new).added,
       (diffDeep (arrayUnionApply old (diffDeep old new).added) new).removed⟩ := rfl
  rw [hsplit, h1, h2]

/-- Applying the pure-removal transform produced by the diff reproduces a
value diff-equal to the proposal: the re-diff is empty. -/
theorem diffDeep_after_remove (old new : List Value)
    (hadd : (diffDeep old new).added = []) :
    diffDeep (arrayRemoveApply old (diffDeep old new).removed) new = ⟨[], []⟩ := by
  have hsub : ∀ x ∈ new, x ∈ old := (diffDeep_added_eq_nil old new).mp hadd
  have hR : ∀ x, x ∈ arrayRemoveApply old (diffDeep old new).removed ↔
      x ∈ old ∧ x ∈ new := by
    intro x
    rw [mem_arrayRemoveApply]
    constructor
    · rintro ⟨hxo, hxr⟩
      refine ⟨hxo, ?_⟩
      by_contra hxn
      exact hxr ((mem_diffDeep_removed old new x).mpr ⟨hxo, hxn⟩)
    · rintro ⟨hxo, hxn⟩
      refine ⟨hxo, fun hxr => ?_⟩
      exact ((mem_diffDeep_removed old new x).mp hxr).2 hxn
  have h1 : (diffDeep (arrayRemoveApply old (diffDeep old new).removed) new).added = [] := by
    rw [diffDeep_added_eq_nil]
    intro x hx
    exact (hR x).mpr ⟨hsub x hx, hx⟩
  have h2 : (diffDeep (arrayRemoveApply old (diffDeep old new).removed) new).removed = [] := by
    rw [diffDeep_removed_eq_nil]
    intro x hx
    exact ((hR x).mp hx).2
  have hsplit : diffDeep (arrayRemoveApply old (diffDeep old new).removed) new =
      ⟨(diffDeep (arrayRemoveApply old (diffDeep old new).removed) new).added,
       (diffDeep (arrayRemoveApply old (diffDeep old new).removed) new).removed⟩ := rfl
  rw [hsplit, h1, h2]

/-- `applyDocUpdate` on an object document, expressed on the field list. -/
def applyDocUpdateF (fields : List (String × Value)) (ts : List (String × Transform)) :
    List (String × Value) :=
  ts.foldl (fun f kt => setA f kt.1 (applyTransform (lookupA f kt.1) kt.2)) fields

theorem applyDocUpdate_vobj (ts : List (String × Transform)) :
    ∀ fields : List (String × Value),
    applyDocUpdate (.vobj fields) ts = .vobj (applyDocUpdateF fields ts) := by
  induction ts with
  | nil => intro fields; rfl
  | cons kt ts ih =>
    intro fields
    have h1 : applyDocUpdate (.vobj fields) (kt :: ts) =
        applyDocUpdate (.vobj (setA fields kt.1 (applyTransform (lookupA fields kt.1) kt.2))) ts := rfl
    have h2 : applyDocUpdateF fields (kt :: ts) =
        applyDocUpdateF (setA fields kt.1 (applyTransform (lookupA fields kt.1) kt.2)) ts := rfl
    rw [h1, h2, ih]

theorem lookupA_applyDocUpdateF_of_not_mem (ts : List (String × Transform)) :
    ∀ (fields : List (String × Value)) (k : String),
    (∀ e ∈ ts, e.1 ≠ k) →
    lookupA (applyDocUpdateF fields ts) k = lookupA fields k := by
  induction ts with
  | nil => intro fields k _; rfl
  | cons kt ts ih =>
    intro fields k h
    have hk : kt.1 ≠ k := h kt (List.mem_cons_self kt ts)
    have h1 : applyDocUpdateF fields (kt :: ts) =
        applyDocUpdateF (setA fields kt.1 (applyTransform (lookupA fields kt.1) kt.2)) ts := rfl
    rw [h1, ih _ k fun e he => h e (List.mem_cons_of_mem kt he)]
    exact lookupA_setA_ne _ _ _ _ (Ne.symm hk)

theorem lookupA_applyDocUpdateF_of_single (ts : List (String × Transform)) :
    ∀ (fields : List (String × Value)) (k : String) (t : Transform),
    ts.filter (fun e => e.1 == k) = [(k, t)] →
    lookupA (applyDocUpdateF fields ts) k =
      some (applyTransform (lookupA fields k) t) := by
  induction ts with
  | nil => intro fields k t h; simp at h
  | cons kt ts ih =>
    intro fields k t h
    obtain ⟨k1, t1⟩ := kt
    by_cases hk : k1 = k
    · subst hk
      have hfilter : ((k1, t1) :: ts).filter (fun e => e.1 == k1) =
          (k1, t1) :: ts.filter (fun e => e.1 == k1) := by
        simp [List.filter_cons]
      rw [hfilter] at h
      have ht1 : t1 = t := by
        have := List.head_eq_of_cons_eq h
        exact congrArg Prod.snd this
      have htail : ts.filter (fun e => e.1 == k1) = [] :=
        List.tail_eq_of_cons_eq h
      have hnone : ∀ e ∈ ts, e.1 ≠ k1 := by
        intro e he heq
        have : e ∈ ts.filter (fun e => e.1 == k1) :=
          List.mem_filter.mpr ⟨he, by simp [heq]⟩
        rw [htail] at this
        simp at this
      have h1 : applyDocUpdateF fields ((k1, t1) :: ts) =
          applyDocUpdateF (setA fields k1 (applyTransform (lookupA fields k1) t1)) ts := rfl
      rw [h1, lookupA_applyDocUpdateF_of_not_mem ts _ k1 hnone,
        lookupA_setA_same, ht1]
    · have hfilter : ((k1, t1) :: ts).filter (fun e => e.1 == k) =
          ts.filter (fun e => e.1 == k) := by
        simp [List.filter_cons, hk]
      rw [hfilter] at h
      have h1 : applyDocUpdateF fields ((k1, t1) :: ts) =
          applyDocUpdateF (setA fields k1 (applyTransform (lookupA fields k1) t1)) ts := rfl
      rw [h1, ih _ k t h, lookupA_setA_ne _ _ _ _ (Ne.symm hk)]


theorem createDocUpdateEntry_keys (doc : Value) (k : String) (v : Value)
    (lst : List (String × Transform)) (h : createDocUpdateEntry doc k v = .ok lst) :
    ∀ e ∈ lst, e.1 = k := by
  intro e he
  unfold createDocUpdateEntry at h
  split at h
  · split at h
    · injection h with h
      subst h
      simp at he
      rw [he]
    · exact nomatch h
  · split at h
    · split at h
      · injection h with h
        subst h
        simp at he
        rw [he]
      · split at h
        · injection h with h
          subst h
          simp at he
          rw [he]
        · injection h with h
          subst h
          simp at he
    · exact nomatch h
  · injection h with h
    subst h
    simp at he
    rw [he]

theorem createDocUpdate_cons (doc : Value) (k : String) (v : Value)
    (rest : List (String × Value)) (head tail : List (String × Transform))
    (hh : createDocUpdateEntry doc k v = .ok head)
    (ht : createDocUpdate doc rest = .ok tail) :
    createDocUpdate doc ((k, v) :: rest) = .ok (head ++ tail) := by
  unfold createDocUpdate
  rw [hh, ht]

theorem createDocUpdate_cons_inv (doc : Value) (k : String) (v : Value)
    (rest : List (String × Value)) (ts : List (String × Transform))
    (h : createDocUpdate doc ((k, v) :: rest) = .ok ts) :
    ∃ head tail, createDocUpdateEntry doc k v = .ok head ∧
      createDocUpdate doc rest = .ok tail ∧ ts = head ++ tail := by
  unfold createDocUpdate at h
  cases hh : createDocUpdateEntry doc k v with
  | error e1 =>
    rw [hh] at h
    exact nomatch h
  | ok head =>
    rw [hh] at h
    cases ht : createDocUpdate doc rest with
    | error e1 =>
      rw [ht] at h
      exact nomatch h
    | ok tail =>
      rw [ht] at h
      injection h with h
      exact ⟨head, tail, rfl, rfl, h.symm⟩

theorem createDocUpdate_keys (doc : Value) (data : List (String × Value)) :
    ∀ ts, createDocUpdate doc data = .ok ts →
    ∀ e ∈ ts, e.1 ∈ data.map Prod.fst := by
  induction data with
  | nil =>
    intro ts h e he
    injection h with h
    subst h
    simp at he
  | cons kv rest ih =>
    intro ts h e he
    obtain ⟨k, v⟩ := kv
    obtain ⟨head, tail, hh, ht, hts⟩ := createDocUpdate_cons_inv doc k v rest ts h
    subst hts
    rcases List.mem_append.mp he with hmem | hmem
    · simp [createDocUpdateEntry_keys doc k v head hh e hmem]
    · simp [ih tail ht e hmem]

theorem createDocUpdate_filter (doc : Value) (data : List (String × Value)) :
    ∀ ts, createDocUpdate doc data = .ok ts →
    (data.map Prod.fst).Nodup →
    ∀ k v, (k, v) ∈ data →
    ∃ lst, createDocUpdateEntry doc k v = .ok lst ∧
      ts.filter (fun e => e.1 == k) = lst := by
  induction data with
  | nil =>
    intro ts _ _ k v hm
    simp at hm
  | cons kv rest ih =>
    intro ts h hnd k v hm
    obtain ⟨k1, v1⟩ := kv
    obtain ⟨head, tail, hh, ht, hts⟩ := createDocUpdate_cons_inv doc k1 v1 rest ts h
    subst hts
    rcases List.mem_cons.mp hm with hmem | hmem
    · injection hmem with hk hv
      subst hk
      subst hv
      refine ⟨head, hh, ?_⟩
      rw [List.filter_append]
      have hfh : head.filter (fun e => e.1 == k) = head := by
        apply List.filter_eq_self.mpr
        intro e he
        simp [createDocUpdateEntry_keys doc k v head hh e he]
      have hft : tail.filter (fun e => e.1 == k) = [] := by
        apply List.filter_eq_nil_iff.mpr
        intro e he
        have hek : e.1 ∈ rest.map Prod.fst := createDocUpdate_keys doc rest tail ht e he
        have hknotin : k ∉ rest.map Prod.fst := by
          simp only [List.map_cons, List.nodup_cons] at hnd
          exact hnd.1
        simp only [beq_iff_eq]
        intro heq
        exact hknotin (heq ▸ hek)
      rw [hfh, hft, List.append_nil]
    · have hnd2 : (rest.map Prod.fst).Nodup := by
        simp only [List.map_cons, List.nodup_cons] at hnd
        exact hnd.2
      obtain ⟨lst, hentry, hfilter⟩ := ih tail ht hnd2 k v hmem
      refine ⟨lst, hentry, ?_⟩
      rw [List.filter_append]
      have hk1 : k1 ≠ k := by
        simp only [List.map_cons, List.nodup_cons] at hnd
        intro heq
        apply hnd.1
        subst heq
        exact List.mem_map.mpr ⟨(k1, v), hmem, rfl⟩
      have hfh : head.filter (fun e => e.1 == k) = [] := by
        apply List.filter_eq_nil_iff.mpr
        intro e he
        have hek1 := createDocUpdateEntry_keys doc k1 v1 head hh e he
        simp only [beq_iff_eq]
        intro heq
        exact hk1 (hek1.symm.trans heq)
      rw [hfh, hfilter, List.nil_append]

theorem createDocUpdate_of_entries_nil (doc : Value) (data : List (String × Value))
    (h : ∀ kv ∈ data, createDocUpdateEntry doc kv.1 kv.2 = .ok []) :
    createDocUpdate doc data = .ok [] := by
  induction data with
  | nil => rfl
  | cons kv rest ih =>
    obtain ⟨k, v⟩ := kv
    have hh : createDocUpdateEntry doc k v = .ok [] := h (k, v) (List.mem_cons_self _ _)
    have ht : createDocUpdate doc rest = .ok [] :=
      ih fun kv hkv => h kv (List.mem_cons_of_mem _ hkv)
    exact createDocUpdate_cons doc k v rest [] [] hh ht

theorem createDocUpdateEntry_union (doc : Value) (k : String) (old new : List Value)
    (h : getFieldV doc k = some (.varr old))
    (hA : (diffDeep old new).added ≠ []) :
    createDocUpdateEntry doc k (.varr new) =
      .ok [(k, .arrayUnion (diffDeep old new).added)] := by
  have hne : (diffDeep old new).added.isEmpty = false := by
    cases hc : (diffDeep old new).added with
    | nil => exact absurd hc hA
    | cons a l => rfl
  simp [createDocUpdateEntry, h, hne]

theorem createDocUpdateEntry_remove (doc : Value) (k : String) (old new : List Value)
    (h : getFieldV doc k = some (.varr old))
    (hA : (diffDeep old new).added = [])
    (hR : (diffDeep old new).removed ≠ []) :
    createDocUpdateEntry doc k (.varr new) =
      .ok [(k, .arrayRemove (diffDeep old new).removed)] := by
  have h1 : (diffDeep old new).added.isEmpty = true := by rw [hA]; rfl
  have h2 : (diffDeep old new).removed.isEmpty = false := by
    cases hc : (diffDeep old new).removed with
    | nil => exact absurd hc hR
    | cons a l => rfl
  simp [createDocUpdateEntry, h, h1, h2]

theorem createDocUpdateEntry_nil (doc : Value) (k : String) (old new : List Value)
    (h : getFieldV doc k = some (.varr old))
    (hA : (diffDeep old new).added = [])
    (hR : (diffDeep old new).removed = []) :
    createDocUpdateEntry doc k (.varr new) = .ok [] := by
  have h1 : (diffDeep old new).added.isEmpty = true := by rw [hA]; rfl
  have h2 : (diffDeep old new).removed.isEmpty = true := by rw [hR]; rfl
  simp [createDocUpdateEntry, h, h1, h2]

theorem rediff_entry_nil_of_pure (fields : List (String × Value))
    (data : List (String × Value)) (ts : List (String × Transform))
    (hnd : (data.map Prod.fst).Nodup)
    (h : createDocUpdate (.vobj fields) data = .ok ts)
    (k : String) (v : Value) (hkv : (k, v) ∈ data)
    (old new : List Value) (hv : v = Value.varr new)
    (hold : lookupA fields k = some (.varr old))
    (hpd : (diffDeep old new).added = [] ∨ (diffDeep old new).removed = []) :
    createDocUpdateEntry (.vobj (applyDocUpdateF fields ts)) k v = .ok [] := by
  obtain ⟨lst, hentry, hfilter⟩ := createDocUpdate_filter (.vobj fields) data ts h hnd k v hkv
  have holdF : getFieldV (.vobj fields) k = some (.varr old) := hold
  by_cases hA : (diffDeep old new).added = []
  · by_cases hR : (diffDeep old new).removed = []
    · -- unchanged array: no transform entry for this key, the field is untouched
      have hentry2 : createDocUpdateEntry (.vobj fields) k v = .ok [] := by
        rw [hv]
        exact createDocUpdateEntry_nil _ _ _ _ holdF hA hR
      rw [hentry2] at hentry
      injection hentry with hlst
      rw [← hlst] at hfilter
      have hnone : ∀ e ∈ ts, e.1 ≠ k := by
        intro e he
        have := List.filter_eq_nil_iff.mp hfilter e he
        simpa using this
      have hfield : lookupA (applyDocUpdateF fields ts) k = some (.varr old) := by
        rw [lookupA_applyDocUpdateF_of_not_mem ts fields k hnone]
        exact hold
      rw [hv]
      exact createDocUpdateEntry_nil _ _ _ _ hfield hA hR
    · -- pure removal
      have hentry2 : createDocUpdateEntry (.vobj fields) k v =
          .ok [(k, .arrayRemove (diffDeep old new).removed)] := by
        rw [hv]
        exact createDocUpdateEntry_remove _ _ _ _ holdF hA hR
      rw [hentry2] at hentry
      injection hentry with hlst
      rw [← hlst] at hfilter
      have hfield : lookupA (applyDocUpdateF fields ts) k =
          some (.varr (arrayRemoveApply old (diffDeep old new).removed)) := by
        rw [lookupA_applyDocUpdateF_of_single ts fields k _ hfilter, hold]
        rfl
      have hd := diffDeep_after_remove old new hA
      have hdA : (diffDeep (arrayRemoveApply old (diffDeep old new).removed) new).added = [] := by
        rw [hd]
      have hdR : (diffDeep (arrayRemoveApply old (diffDeep old new).removed) new).removed = [] := by
        rw [hd]
      rw [hv]
      exact createDocUpdateEntry_nil _ _ _ _ hfield hdA hdR
  · -- pure addition (purity rules out simultaneous removal)
    have hR : (diffDeep old new).removed = [] := by
      rcases hpd with hpd | hpd
      · exact absurd hpd hA
      · exact hpd
    have hentry2 : createDocUpdateEntry (.vobj fields) k v =
        .ok [(k, .arrayUnion (diffDeep old new).added)] := by
      rw [hv]
      exact createDocUpdateEntry_union _ _ _ _ holdF hA
    rw [hentry2] at hentry
    injection hentry with hlst
    rw [← hlst] at hfilter
    have hfield : lookupA (applyDocUpdateF fields ts) k =
        some (.varr (arrayUnionApply old (diffDeep old new).added)) := by
      rw [lookupA_applyDocUpdateF_of_single ts fields k _ hfilter, hold]
      rfl
    have hd := diffDeep_after_union old new hR
    have hdA : (diffDeep (arrayUnionApply old (diffDeep old new).added) new).added = [] := by
      rw [hd]
    have hdR : (diffDeep (arrayUnionApply old (diffDeep old new).added) new).removed = [] := by
      rw [hd]
    rw [hv]
    exact createDocUpdateEntry_nil _ _ _ _ hfield hdA hdR

theorem lookupA_append_right {α : Type} [DecidableEq α] {β : Type}
    (l : List (α × β)) (k : α) (v : β) (h : lookupA l k = none) :
    lookupA (l ++ [(k, v)]) k = some v := by
  induction l with
  | nil => simp [lookupA]
  | cons hd tl ih =>
    obtain ⟨k2, v2⟩ := hd
    by_cases h2 : k2 = k
    · simp [lookupA, h2] at h
    · simp only [List.cons_append, lookupA, h2, if_neg, if_false] at h ⊢
      exact ih h

theorem applyChanges_dataCache_frame (changes : List DocChange) :
    ∀ (docs : List SDoc) (dc : List (String × SDoc)) (id : String),
    (∀ c ∈ changes, DocChange.docId c ≠ id) →
    lookupA (applyChanges (docs, dc) changes).2 id = lookupA dc id := by
  induction changes with
  | nil => intro docs dc id _; rfl
  | cons c rest ih =>
    intro docs dc id h
    have hc : DocChange.docId c ≠ id := h c (List.mem_cons_self _ _)
    have hrest : ∀ c2 ∈ rest, DocChange.docId c2 ≠ id :=
      fun c2 hc2 => h c2 (List.mem_cons_of_mem _ hc2)
    cases c with
    | added d =>
      show lookupA (applyChanges (docs ++ [d], setA dc d.id d) rest).2 id = lookupA dc id
      rw [ih _ _ _ hrest]
      exact lookupA_setA_ne _ _ _ _ (Ne.symm hc)
    | modified d =>
      simp only [applyChanges]
      rw [ih _ _ _ hrest]
      exact lookupA_setA_ne _ _ _ _ (Ne.symm hc)
    | removed d =>
      simp only [applyChanges]
      rw [ih _ _ _ hrest]
      exact lookupA_eraseA_ne _ _ _ (Ne.symm hc)

theorem runOp_frame (s : CacheState) (op : CacheOp) (id : String)
    (h : writesId id op = false) :
    getDocumentData (runOp s op) id = getDocumentData s id := by
  cases op with
  | setDoc i d =>
    have hne : i ≠ id := by simpa [writesId] using h
    show lookupA (setA s.dataCache i d) id = lookupA s.dataCache id
    exact lookupA_setA_ne _ _ _ _ (Ne.symm hne)
  | reconcile docs changes =>
    have hall : ∀ c ∈ changes, DocChange.docId c ≠ id := by
      simp only [writesId, List.any_eq_false, decide_eq_true_eq] at h
      exact h
    show lookupA (applyChanges (docs, s.dataCache) changes).2 id = lookupA s.dataCache id
    exact applyChanges_dataCache_frame changes docs s.dataCache id hall

theorem updateSnapshotFn_fst_snapshot (s : RetState) (raw : RawSnapshot) :
    (updateSnapshotFn s raw).1.snapshot = s.snapshot := by
  unfold updateSnapshotFn
  split
  · rfl
  · cases raw <;> rfl

/-! ## Claim theorems -/

/-- Claim C1, counterexample: on the spec's own example
`createDocUpdate({id:"1", views:5}, {views:8})` the code emits
`increment(5 + 8) = increment(13)`, not the claimed `increment(8 − 5) =
increment(3)`. -/
theorem c1_counterexample :
    createDocUpdate (.vobj [("id", .vstr "1"), ("views", .vnum 5)]) [("views", .vnum 8)] =
      .ok [("views", .increment 13)] ∧
    createDocUpdate (.vobj [("id", .vstr "1"), ("views", .vnum 5)]) [("views", .vnum 8)] ≠
      .ok [("views", .increment 3)] := by
  exact ⟨by decide, by decide⟩

/-- Claim C1, amended: for every numeric field of the update whose dot-path
resolves to a numeric value `c` in the cached document, `createDocUpdate`
emits for that field an increment transform whose operand is the cached value
PLUS the proposed value (`c + n`), not their difference; in particular the
example yields `{views: increment(13)}`. -/
theorem c1_amended_increment_operand :
    ∀ (doc : Value) (data : List (String × Value)) (ts : List (String × Transform))
      (key : String) (n c : Int),
    (key, Value.vnum n) ∈ data →
    lookupPath doc (splitDots key) = some (.vnum c) →
    createDocUpdate doc data = .ok ts →
    (key, Transform.increment (c + n)) ∈ ts := by
  intro doc data
  induction data with
  | nil =>
    intro ts key n c hm _ _
    simp at hm
  | cons kv rest ih =>
    intro ts key n c hm hl h
    obtain ⟨k1, v1⟩ := kv
    obtain ⟨head, tail, hh, ht, hts⟩ := createDocUpdate_cons_inv doc k1 v1 rest ts h
    subst hts
    rcases List.mem_cons.mp hm with hmem | hmem
    · injection hmem with hk hv
      subst hk
      subst hv
      have hh2 : createDocUpdateEntry doc key (.vnum n) =
          .ok [(key, .increment (c + n))] := by
        simp [createDocUpdateEntry, hl]
      rw [hh2] at hh
      injection hh with hh
      rw [← hh]
      exact List.mem_append_left _ (List.mem_singleton.mpr rfl)
    · exact List.mem_append_right _ (ih tail key n c hmem hl ht)

/-- Claim C1, amended, witness at the spec's example. -/
theorem c1_amended_increment_operand_witness :
    ("views", Transform.increment 13) ∈ [("views", Transform.increment 13)] :=
  c1_amended_increment_operand (.vobj [("id", .vstr "1"), ("views", .vnum 5)])
    [("views", .vnum 8)] [("views", .increment 13)] "views" 8 5
    (by decide) (by decide) (by decide)

/-- Claim C2, counterexample: for the numeric update `{views: 8}` against the
cached `{id:"1", views:5}`, applying the computed transform
(`increment(13)`, so `views` becomes 18) and re-diffing emits
`{views: increment(26)}`, not an empty transform map. -/
theorem c2_counterexample :
    createDocUpdate (.vobj [("id", .vstr "1"), ("views", .vnum 5)]) [("views", .vnum 8)] =
      .ok [("views", .increment 13)] ∧
    applyDocUpdate (.vobj [("id", .vstr "1"), ("views", .vnum 5)])
      [("views", .increment 13)] = .vobj [("id", .vstr "1"), ("views", .vnum 18)] ∧
    createDocUpdate (.vobj [("id", .vstr "1"), ("views", .vnum 18)]) [("views", .vnum 8)] =
      .ok [("views", .increment 26)] ∧
    (Except.ok [("views", Transform.increment 26)] ≠
      (.ok [] : Except DiffError (List (String × Transform)))) := by
  exact ⟨by decide, by decide, by decide, by decide⟩

/-- Claim C2, amended: the apply-then-re-diff round trip yields an empty
transform map for updates all of whose fields are array-valued with a pure
diff (only additions or only removals) against the cached baseline; numeric
and literal fields re-emit transforms, so the general claim fails. -/
theorem c2_amended_rediff_empty_for_pure_array_updates
    (fields data : List (String × Value)) (ts : List (String × Transform))
    (hnd : (data.map Prod.fst).Nodup)
    (hpure : ∀ kv ∈ data, ∃ old new, kv.2 = Value.varr new ∧
        lookupA fields kv.1 = some (.varr old) ∧
        ((diffDeep old new).added = [] ∨ (diffDeep old new).removed = []))
    (h : createDocUpdate (.vobj fields) data = .ok ts) :
    createDocUpdate (applyDocUpdate (.vobj fields) ts) data = .ok [] := by
  rw [applyDocUpdate_vobj]
  apply createDocUpdate_of_entries_nil
  intro kv hkv
  obtain ⟨k, v⟩ := kv
  obtain ⟨old, new, hv, hold, hpd⟩ := hpure (k, v) hkv
  exact rediff_entry_nil_of_pure fields data ts hnd h k v hkv old new hv hold hpd

/-- Claim C2, amended, witness on the spec's tags example. -/
theorem c2_amended_rediff_empty_witness :
    createDocUpdate
      (applyDocUpdate (.vobj [("id", .vstr "1"), ("tags", .varr [.vstr "a", .vstr "b"])])
        [("tags", .arrayUnion [.vstr "c"])])
      [("tags", .varr [.vstr "a", .vstr "b", .vstr "c"])] = .ok [] :=
  c2_amended_rediff_empty_for_pure_array_updates
    [("id", .vstr "1"), ("tags", .varr [.vstr "a", .vstr "b"])]
    [("tags", .varr [.vstr "a", .vstr "b", .vstr "c"])]
    [("tags", .arrayUnion [.vstr "c"])]
    (by decide)
    (by
      intro kv hkv
      have hkv2 : kv = ("tags", Value.varr [.vstr "a", .vstr "b", .vstr "c"]) := by
        simpa using hkv
      subst hkv2
      exact ⟨[.vstr "a", .vstr "b"], [.vstr "a", .vstr "b", .vstr "c"], rfl, by decide,
        Or.inr (by decide)⟩)
    (by decide)

/-- Claim C6: with a cached array baseline, a pure addition emits arrayUnion
of exactly the deep-equality diff's added elements and a pure removal emits
arrayRemove of exactly the removed elements; the spec's two tag examples
evaluate as claimed. -/
theorem c6_array_diff_transforms :
    (∀ (doc : Value) (key : String) (old new : List Value),
      getFieldV doc key = some (.varr old) →
      (((diffDeep old new).added ≠ [] → (diffDeep old new).removed = [] →
        createDocUpdateEntry doc key (.varr new) =
          .ok [(key, .arrayUnion (diffDeep old new).added)]) ∧
       ((diffDeep old new).added = [] → (diffDeep old new).removed ≠ [] →
        createDocUpdateEntry doc key (.varr new) =
          .ok [(key, .arrayRemove (diffDeep old new).removed)]))) ∧
    createDocUpdate (.vobj [("id", .vstr "1"), ("tags", .varr [.vstr "a", .vstr "b"])])
      [("tags", .varr [.vstr "a", .vstr "b", .vstr "c"])] =
      .ok [("tags", .arrayUnion [.vstr "c"])] ∧
    createDocUpdate (.vobj [("id", .vstr "1"), ("tags", .varr [.vstr "a", .vstr "b"])])
      [("tags", .varr [.vstr "a"])] =
      .ok [("tags", .arrayRemove [.vstr "b"])] := by
  refine ⟨?_, by decide, by decide⟩
  intro doc key old new h
  exact ⟨fun hA _ => createDocUpdateEntry_union doc key old new h hA,
    fun hA hR => createDocUpdateEntry_remove doc key old new h hA hR⟩

/-- Claim C6, witness on the union example. -/
theorem c6_array_diff_transforms_witness :
    createDocUpdateEntry (.vobj [("tags", .varr [.vstr "a", .vstr "b"])]) "tags"
      (.varr [.vstr "a", .vstr "b", .vstr "c"]) =
      .ok [("tags",
        .arrayUnion (diffDeep [.vstr "a", .vstr "b"] [.vstr "a", .vstr "b", .vstr "c"]).added)] :=
  (c6_array_diff_transforms.1 (.vobj [("tags", .varr [.vstr "a", .vstr "b"])]) "tags"
    [.vstr "a", .vstr "b"] [.vstr "a", .vstr "b", .vstr "c"] (by decide)).1
    (by decide) (by decide)

/-- Claim C5: while the fetch future is pending, a second `get()` returns it
unchanged — the very same future token — and leaves the whole retriever state
(including the fetch counter) untouched: no second remote fetch is issued. -/
theorem c5_get_same_future_no_refetch (s : RetState) (pid : Nat)
    (h : s.promise = some (pid, .pending)) :
    getOp s = (s, pid) := by
  simp [getOp, h]

/-- Claim C5, witness: a fresh document retriever after one `get()`. -/
theorem c5_get_same_future_no_refetch_witness :
    getOp (getOp (initRetState .document)).1 = ((getOp (initRetState .document)).1, 0) :=
  c5_get_same_future_no_refetch (getOp (initRetState .document)).1 0 (by decide)

/-- Claim C7, counterexample: after a not-found fetch resolution the future is
fulfilled with null, but the retriever's snapshot does NOT become null — the
`get()` path never assigns `snapshot`, so `getSnapshot()` still yields
undefined. -/
theorem c7_counterexample :
    (fetchResolve (getOp (initRetState .document)).1 (.docMissing "1")).promise =
      some (0, .fulfilled .nullSnap) ∧
    (fetchResolve (getOp (initRetState .document)).1 (.docMissing "1")).snapshot = none ∧
    (fetchResolve (getOp (initRetState .document)).1 (.docMissing "1")).snapshot ≠
      some SnapVal.nullSnap := by
  exact ⟨by decide, by decide, by decide⟩

/-- Claim C7, amended: a fetch resolving with a nonexistent document fulfills
the future with null (it is not rejected) and changes nothing else; in
particular the snapshot stays unset rather than becoming null. -/
theorem c7_amended_notfound_null_fulfill (s : RetState) (pid : Nat) (st : PStatus)
    (i : String) (h : s.promise = some (pid, st)) :
    fetchResolve s (.docMissing i) =
      { s with promise := some (pid, .fulfilled .nullSnap) } := by
  simp [fetchResolve, h]

/-- Claim C7, amended, witness. -/
theorem c7_amended_notfound_null_fulfill_witness :
    fetchResolve (getOp (initRetState .document)).1 (.docMissing "1") =
      { (getOp (initRetState .document)).1 with promise := some (0, .fulfilled .nullSnap) } :=
  c7_amended_notfound_null_fulfill (getOp (initRetState .document)).1 0 .pending "1" (by decide)

/-- Claim C8, counterexample: after a fetch failure the rejected future stays
installed, so a later `get()` returns the very same rejected future and starts
no new fetch (the fetch counter stays at 1) — there is no independent retry. -/
theorem c8_counterexample :
    (fetchReject (getOp (initRetState .document)).1 7).promise = some (0, .rejected 7) ∧
    getOp (fetchReject (getOp (initRetState .document)).1 7) =
      (fetchReject (getOp (initRetState .document)).1 7, 0) ∧
    (fetchReject (getOp (initRetState .document)).1 7).fetchCount = 1 := by
  exact ⟨by decide, by decide, by decide⟩

/-- Claim C8, amended: a fetch failure rejects only the call's future — the
snapshot stays unset, no subscriber is notified, no counter moves — but a
later `get()` does NOT retry: it returns the same (rejected) future and issues
no new fetch. -/
theorem c8_amended_reject_isolated_no_retry (s : RetState) (pid : Nat) (st : PStatus)
    (e : Nat) (h : s.promise = some (pid, st)) :
    (fetchReject s e).promise = some (pid, .rejected e) ∧
    (fetchReject s e).snapshot = s.snapshot ∧
    (fetchReject s e).notes = s.notes ∧
    (fetchReject s e).fetchCount = s.fetchCount ∧
    getOp (fetchReject s e) = (fetchReject s e, pid) := by
  simp [fetchReject, getOp, h]

/-- Claim C8, amended, witness. -/
theorem c8_amended_reject_isolated_no_retry_witness :
    (fetchReject (getOp (initRetState .document)).1 7).promise = some (0, .rejected 7) ∧
    (fetchReject (getOp (initRetState .document)).1 7).snapshot =
      (getOp (initRetState .document)).1.snapshot ∧
    (fetchReject (getOp (initRetState .document)).1 7).notes =
      (getOp (initRetState .document)).1.notes ∧
    (fetchReject (getOp (initRetState .document)).1 7).fetchCount =
      (getOp (initRetState .document)).1.fetchCount ∧
    getOp (fetchReject (getOp (initRetState .document)).1 7) =
      (fetchReject (getOp (initRetState .document)).1 7, 0) :=
  c8_amended_reject_isolated_no_retry (getOp (initRetState .document)).1 0 .pending 7
    (by decide)

/-- Claim C3, counterexample: when the push channel has recorded a null
snapshot (document deleted) before the fetch resolves with a stale existing
payload, the future is fulfilled with the stale fetch payload, not with the
pushed (null) snapshot: `snapshot || updateSnapshot(...)` treats null as
falsy. -/
theorem c3_counterexample :
    (push (getOp (initRetState .document)).1 (.docMissing "1")).snapshot =
      some SnapVal.nullSnap ∧
    (fetchResolve (push (getOp (initRetState .document)).1 (.docMissing "1"))
      (.docData "1" [("title", .vstr "a")])).promise =
      some (0, .fulfilled (.docSnap [("title", .vstr "a")] "1")) ∧
    (fetchResolve (push (getOp (initRetState .document)).1 (.docMissing "1"))
      (.docData "1" [("title", .vstr "a")])).promise ≠
      some (0, .fulfilled SnapVal.nullSnap) := by
  exact ⟨by decide, by decide, by decide⟩

/-- Claim C3, amended: a fetch resolution never overwrites the stored
snapshot, and when the already-recorded pushed snapshot is truthy (a document
object or an array — not null) a successfully resolving fetch fulfills the
future with that pushed snapshot, leaving the whole state otherwise
unchanged. A pushed null snapshot, however, loses to the fetch payload. -/
theorem c3_amended_pushed_snapshot_wins :
    (∀ (s : RetState) (raw : RawSnapshot), (fetchResolve s raw).snapshot = s.snapshot) ∧
    (∀ (s : RetState) (pid : Nat) (st : PStatus) (sv : SnapVal) (id : String)
        (fields : List (String × Value)),
      s.promise = some (pid, st) → s.snapshot = some sv → sv.truthy = true →
      fetchResolve s (.docData id fields) = { s with promise := some (pid, .fulfilled sv) }) ∧
    (∀ (s : RetState) (pid : Nat) (st : PStatus) (sv : SnapVal) (changes : List DocChange),
      s.promise = some (pid, st) → s.snapshot = some sv → sv.truthy = true →
      fetchResolve s (.queryData changes) =
        { s with promise := some (pid, .fulfilled sv) }) := by
  refine ⟨?_, ?_, ?_⟩
  · intro s raw
    unfold fetchResolve
    cases hp : s.promise with
    | none => rfl
    | some p =>
      obtain ⟨pid, st⟩ := p
      cases raw with
      | docMissing i => rfl
      | docData id fields =>
        cases hs : s.snapshot with
        | none => simp [updateSnapshotFn_fst_snapshot, hs]
        | some sv =>
          by_cases ht : sv.truthy
          · simp [ht, hs]
          · simp [ht, updateSnapshotFn_fst_snapshot, hs]
      | queryData changes =>
        cases hs : s.snapshot with
        | none => simp [updateSnapshotFn_fst_snapshot, hs]
        | some sv =>
          by_cases ht : sv.truthy
          · simp [ht, hs]
          · simp [ht, updateSnapshotFn_fst_snapshot, hs]
  · intro s pid st sv id fields hp hs ht
    simp [fetchResolve, hp, hs, ht]
  · intro s pid st sv changes hp hs ht
    simp [fetchResolve, hp, hs, ht]

/-- Claim C3, amended, witness: a truthy pushed document snapshot wins over a
stale fetch payload resolving afterwards. -/
theorem c3_amended_pushed_snapshot_wins_witness :
    fetchResolve (push (getOp (initRetState .document)).1 (.docData "1" [("title", .vstr "a")]))
      (.docData "1" [("title", .vstr "old")]) =
      { push (getOp (initRetState .document)).1 (.docData "1" [("title", .vstr "a")]) with
          promise := some (0, .fulfilled (.docSnap [("title", .vstr "a")] "1")) } :=
  c3_amended_pushed_snapshot_wins.2.1
    (push (getOp (initRetState .document)).1 (.docData "1" [("title", .vstr "a")]))
    0 (.fulfilled (.docSnap [("title", .vstr "a")] "1"))
    (.docSnap [("title", .vstr "a")] "1") "1" [("title", .vstr "old")]
    (by decide) (by decide) (by decide)

/-- Claim C9, counterexample: the document-kind fetch fulfills the future with
`{id:"1", title:"a"}` as claimed, but the flat id → document map is NOT
populated: only the collection/query branch of `updateSnapshot` writes
`dataCache`, so `getDocumentData("1")` stays undefined. -/
theorem c9_counterexample :
    (fetchResolve (getOp (initRetState .document)).1
      (.docData "1" [("title", .vstr "a")])).promise =
      some (0, .fulfilled (.docSnap [("title", .vstr "a")] "1")) ∧
    getDocumentDataR (fetchResolve (getOp (initRetState .document)).1
      (.docData "1" [("title", .vstr "a")])) "1" = none ∧
    getDocumentDataR (fetchResolve (getOp (initRetState .document)).1
      (.docData "1" [("title", .vstr "a")])) "1" ≠
      some ⟨"1", [("title", .vstr "a")]⟩ := by
  exact ⟨by decide, by decide, by decide⟩

/-- Claim C9, amended: for a document retriever with no recorded snapshot, a
fetch resolving with fields fulfills the future with `{...fields, id}` and
changes nothing else — in particular the id → document map stays untouched. -/
theorem c9_amended_fulfill_without_datacache (s : RetState) (pid : Nat) (st : PStatus)
    (id : String) (fields : List (String × Value))
    (hk : s.kind = .document) (hp : s.promise = some (pid, st)) (hs : s.snapshot = none) :
    fetchResolve s (.docData id fields) =
      { s with promise := some (pid, .fulfilled (.docSnap fields id)) } := by
  simp [fetchResolve, hp, hs, updateSnapshotFn, hk]

/-- Claim C9, amended, witness. -/
theorem c9_amended_fulfill_without_datacache_witness :
    fetchResolve (getOp (initRetState .document)).1 (.docData "1" [("title", .vstr "a")]) =
      { (getOp (initRetState .document)).1 with
          promise := some (0, .fulfilled (.docSnap [("title", .vstr "a")] "1")) } :=
  c9_amended_fulfill_without_datacache (getOp (initRetState .document)).1 0 .pending
    "1" [("title", .vstr "a")] (by decide) (by decide) (by decide)

/-- Claim C4: `create` returns the already-registered retriever for any
structurally-equal key (path equality for document/collection keys — which
share one path-indexed map — and structural query equality); for a key with no
equal registered entry it allocates a fresh retriever, registers it so that
the same key now resolves to it, and bumps the allocation counter by exactly
one. -/
theorem c4_create_dedup_and_registration :
    (∀ (s : CacheState) (k1 k2 : RefKey), keyEq k1 k2 = true →
      (createOp (createOp s k1).1 k2).2 = (createOp s k1).2) ∧
    (∀ (s : CacheState) (k : RefKey), getRetrieverOp s k = none →
      (createOp s k).2 = s.nextId ∧
      (createOp s k).1.nextId = s.nextId + 1 ∧
      getRetrieverOp (createOp s k).1 k = some s.nextId) := by
  constructor
  · intro s k1 k2 hk
    cases k1 with
    | document p =>
      cases k2 with
      | document p2 =>
        simp only [keyEq, decide_eq_true_eq] at hk
        subst hk
        cases h : lookupA s.pathCache p with
        | some rid => simp [createOp, getRetrieverOp, h]
        | none => simp [createOp, getRetrieverOp, h, lookupA_setA_same]
      | collection p2 =>
        simp only [keyEq, decide_eq_true_eq] at hk
        subst hk
        cases h : lookupA s.pathCache p with
        | some rid => simp [createOp, getRetrieverOp, h]
        | none => simp [createOp, getRetrieverOp, h, lookupA_setA_same]
      | query q2 => simp [keyEq] at hk
    | collection p =>
      cases k2 with
      | document p2 =>
        simp only [keyEq, decide_eq_true_eq] at hk
        subst hk
        cases h : lookupA s.pathCache p with
        | some rid => simp [createOp, getRetrieverOp, h]
        | none => simp [createOp, getRetrieverOp, h, lookupA_setA_same]
      | collection p2 =>
        simp only [keyEq, decide_eq_true_eq] at hk
        subst hk
        cases h : lookupA s.pathCache p with
        | some rid => simp [createOp, getRetrieverOp, h]
        | none => simp [createOp, getRetrieverOp, h, lookupA_setA_same]
      | query q2 => simp [keyEq] at hk
    | query q =>
      cases k2 with
      | document p2 => simp [keyEq] at hk
      | collection p2 => simp [keyEq] at hk
      | query q2 =>
        simp only [keyEq, decide_eq_true_eq] at hk
        subst hk
        cases h : lookupA s.queryCache q with
        | some rid => simp [createOp, getRetrieverOp, h]
        | none => simp [createOp, getRetrieverOp, h, lookupA_append_right _ _ _ h]
  · intro s k hnone
    cases k with
    | document p =>
      simp only [getRetrieverOp] at hnone
      simp [createOp, getRetrieverOp, hnone, lookupA_setA_same]
    | collection p =>
      simp only [getRetrieverOp] at hnone
      simp [createOp, getRetrieverOp, hnone, lookupA_setA_same]
    | query q =>
      simp only [getRetrieverOp] at hnone
      simp [createOp, getRetrieverOp, hnone, lookupA_append_right _ _ _ hnone]

/-- Claim C4, witness: dedup of an equal document key and fresh registration
of a collection key on the empty cache. -/
theorem c4_create_dedup_and_registration_witness :
    (createOp (createOp initCacheState (.document "todos/1")).1 (.document "todos/1")).2 =
      (createOp initCacheState (.document "todos/1")).2 ∧
    (createOp initCacheState (.collection "todos")).2 = initCacheState.nextId :=
  ⟨c4_create_dedup_and_registration.1 initCacheState (.document "todos/1")
    (.document "todos/1") (by decide),
   (c4_create_dedup_and_registration.2 initCacheState (.collection "todos") (by decide)).1⟩

/-- Claim C10: `setDocumentData(id, v)` makes `getDocumentData(id)` return
exactly `v` while every other id's entry is untouched, and an id never written
by any reconciliation batch or `setDocumentData` call still reads as
undefined after any operation sequence on a fresh cache. -/
theorem c10_document_data_map_laws :
    (∀ (s : CacheState) (id : String) (d : SDoc),
      getDocumentData (setDocumentData s id d) id = some d) ∧
    (∀ (s : CacheState) (id id2 : String) (d : SDoc), id2 ≠ id →
      getDocumentData (setDocumentData s id d) id2 = getDocumentData s id2) ∧
    (∀ (ops : List CacheOp) (id : String),
      (∀ op ∈ ops, writesId id op = false) →
      getDocumentData (runOps initCacheState ops) id = none) := by
  refine ⟨?_, ?_, ?_⟩
  · intro s id d
    exact lookupA_setA_same s.dataCache id d
  · intro s id id2 d h
    exact lookupA_setA_ne s.dataCache id id2 d h
  · intro ops id h
    have hgen : ∀ s : CacheState, (∀ op ∈ ops, writesId id op = false) →
        getDocumentData (runOps s ops) id = getDocumentData s id := by
      clear h
      induction ops with
      | nil => intro s _; rfl
      | cons op rest ih =>
        intro s h
        show getDocumentData (runOps (runOp s op) rest) id = _
        rw [ih _ fun o ho => h o (List.mem_cons_of_mem _ ho),
          runOp_frame s op id (h op (List.mem_cons_self _ _))]
    rw [hgen initCacheState h]
    rfl

/-- Claim C10, witness: a concrete write-read round trip plus an untouched-id
read on a fresh cache after an unrelated write. -/
theorem c10_document_data_map_laws_witness :
    getDocumentData (setDocumentData initCacheState "1" ⟨"1", [("title", .vstr "a")]⟩) "1" =
      some ⟨"1", [("title", .vstr "a")]⟩ ∧
    getDocumentData (setDocumentData initCacheState "1" ⟨"1", []⟩) "2" =
      getDocumentData initCacheState "2" ∧
    getDocumentData (runOps initCacheState [.setDoc "2" ⟨"2", []⟩]) "1" = none :=
  ⟨c10_document_data_map_laws.1 initCacheState "1" ⟨"1", [("title", .vstr "a")]⟩,
   c10_document_data_map_laws.2.1 initCacheState "1" "2" ⟨"1", []⟩ (by decide),
   c10_document_data_map_laws.2.2 [.setDoc "2" ⟨"2", []⟩] "1" (by decide)⟩
